import Mathlib

/-
Verification of the lexer-generator scanning engine (src/src/lib.rs).

Shallow embedding notes:
* Every compiled regular expression in the source is only ever applied,
  via is_match, to a one-character string (the whitespace test, the
  operator start or halt tests, and the literal start or halt tests all
  receive String::from(one char); the operator start and literal start
  tests receive the lexeme while it still holds exactly the first
  character).  A compiled matcher is therefore modelled by its action on
  single characters, a function Char → Bool.
* Rust panics (array indexing out of bounds margin in ch(), unwrap and
  expect calls, the explicit no-known-pattern panic) are modelled as the
  error branch of Except String.
* HashMap iteration order is modelled by the order of an association
  list; HashMap::get is List.lookup (first hit).
* Source text is a List Char; String::remove(0) is taking the tail.
-/

set_option maxRecDepth 4000

namespace LexerGen

/-- Compiled rule set, mirroring struct RegexRuleSet of the source.
A compiled matcher is modelled by its action on single characters. -/
structure RegexRuleSet where
  keywords : List (List Char)
  literal_regex : List (String × List (Char → Bool))
  operators : List (List Char × String)
  operator_start : Char → Bool
  operator_halt : Char → Bool
  whitespace : Char → Bool

/-- Raw rule set, mirroring struct RuleSet of the source (pattern strings
before compilation). -/
structure RuleSet where
  keywords : List (List Char)
  literal_regex : List (String × List String)
  operators : List (List Char × String)
  operator_start : String
  operator_halt : String
  whitespace : String

/-- Message of the panic raised by Option::unwrap on None (Regex::new
failure in RegexRuleSet::from). -/
def unwrapMsg : String := "called Option unwrap on a None value"

/-- Compile a list of pattern strings (the per-rule start and halt
pattern list), failing like unwrap at the first bad pattern. -/
def compileList (compile : String → Option (Char → Bool)) :
    List String → Except String (List (Char → Bool))
  | [] => .ok []
  | p :: rest =>
    match compile p with
    | none => .error unwrapMsg
    | some r =>
      match compileList compile rest with
      | .error e => .error e
      | .ok rs => .ok (r :: rs)

/-- Compile the literal_regex map entry by entry in iteration order. -/
def compileLits (compile : String → Option (Char → Bool)) :
    List (String × List String) →
      Except String (List (String × List (Char → Bool)))
  | [] => .ok []
  | (name, pats) :: rest =>
    match compileList compile pats with
    | .error e => .error e
    | .ok rs =>
      match compileLits compile rest with
      | .error e => .error e
      | .ok tl => .ok ((name, rs) :: tl)

/-- RegexRuleSet::from of the source: compile every pattern string, in
struct field order (literal_regex, operator_start, operator_halt,
whitespace), panicking via unwrap at the first failure.  The pattern
compiler itself (the external regex crate) is a parameter. -/
def RegexRuleSet.from (compile : String → Option (Char → Bool))
    (rs : RuleSet) : Except String RegexRuleSet :=
  match compileLits compile rs.literal_regex with
  | .error e => .error e
  | .ok lits =>
    match compile rs.operator_start with
    | none => .error unwrapMsg
    | some os =>
      match compile rs.operator_halt with
      | none => .error unwrapMsg
      | some oh =>
        match compile rs.whitespace with
        | none => .error unwrapMsg
        | some ws =>
          .ok ⟨rs.keywords, lits, rs.operators, os, oh, ws⟩

/-- Token of the source: type name, consumed substring, line counter. -/
structure Token where
  token_type : String
  value : List Char
  line : Nat
deriving DecidableEq

/-- Lexer state of the source: remaining source text, last token,
one-token cache, compiled rules, newline counter. -/
structure Lexer where
  source : List Char
  last_token : Option Token
  cache : Option Token
  rules : RegexRuleSet
  line : Nat

/-- Lexer construction (Lexer::from / Lexer::from_args after rule
compilation): fresh state over a compiled rule set and a source. -/
def Lexer.init (rules : RegexRuleSet) (source : List Char) : Lexer :=
  ⟨source, none, none, rules, 0⟩

/-- Line update performed by Lexer::get when removing one character. -/
def bumpLine (c : Char) (line : Nat) : Nat :=
  if c == '\n' then line + 1 else line

/-- Lexer::done of the source: 0 >= self.source.len(). -/
def Lexer.done (l : Lexer) : Bool := l.source.length == 0

/-- Message of the panic raised by ch() indexing as_bytes()[0] on an
empty buffer. -/
def idxMsg : String := "index out of bounds"

/-- Lexer::get of the source: remove the first character, bumping the
line counter on a newline.  remove(0) on an empty buffer panics. -/
def Lexer.get (l : Lexer) : Except String (Char × Lexer) :=
  match l.source with
  | [] => .error "cannot remove from empty string"
  | c :: rest =>
    .ok (c, { l with source := rest, line := bumpLine c l.line })

/-- The loop of Lexer::skip_whitespace on the raw buffer: while
whitespace.is_match(ch()) { get() }.  The condition evaluates ch()
first, so an empty buffer panics (no done() guard in the source). -/
def skipWs (ws : Char → Bool) : List Char → Nat → Option (List Char × Nat)
  | [], _ => none
  | c :: rest, line =>
    if ws c then skipWs ws rest (bumpLine c line)
    else some (c :: rest, line)

/-- Lexer::skip_whitespace of the source, on the Lexer state. -/
def Lexer.skip_whitespace (l : Lexer) : Except String Lexer :=
  match skipWs l.rules.whitespace l.source l.line with
  | none => .error idxMsg
  | some (src, line) => .ok { l with source := src, line := line }

/-- The shared loop shape while !done() && !halt(ch()) (lexeme.push(get()))
of the operator, literal and fallback branches of Lexer::parse_next.
Returns the extended lexeme, the remaining buffer and the line counter. -/
def eatWhileNot (halt : Char → Bool) :
    List Char → Nat → List Char → List Char × List Char × Nat
  | [], line, lexeme => (lexeme, [], line)
  | c :: rest, line, lexeme =>
    if halt c then (lexeme, c :: rest, line)
    else eatWhileNot halt rest (bumpLine c line) (lexeme ++ [c])

/-- The operator branch of Lexer::parse_next: extend the lexeme until
operator_halt, look the lexeme up in the operators map (expect panics
when absent), and emit a token of type "operator". -/
def runOperator (l : Lexer) (c : Char) : Except String (Option Token × Lexer) :=
  let r := eatWhileNot l.rules.operator_halt l.source l.line [c]
  match l.rules.operators.lookup r.1 with
  | none => .error (String.mk r.1 ++ " is not a valid operator")
  | some _ =>
    .ok (some ⟨"operator", r.1, r.2.2⟩,
      { l with source := r.2.1, line := r.2.2 })

/-- The body of one matching iteration of the literal loop of
Lexer::parse_next: extend the lexeme until the rule's halt pattern, then
emit a token of type "keyword" when the lexeme is a configured keyword
and of the rule's name otherwise. -/
def runLiteral (kws : List (List Char)) (name : String) (halt : Char → Bool)
    (c : Char) (l : Lexer) : Token × Lexer :=
  let r := eatWhileNot halt l.source l.line [c]
  (⟨if r.1 ∈ kws then "keyword" else name, r.1, r.2.2⟩,
    { l with source := r.2.1, line := r.2.2 })

/-- The literal loop of Lexer::parse_next: iterate the cloned
literal_regex map in order; on the first rule whose start pattern
(patterns.get(0).unwrap()) matches the one-character lexeme, run the
halt loop (patterns.get(1).unwrap()) and return its token.  A rule list
shorter than two patterns panics via unwrap when reached. -/
def lexLiteral (kws : List (List Char)) (c : Char) (l : Lexer) :
    List (String × List (Char → Bool)) →
      Except String (Option (Token × Lexer))
  | [] => .ok none
  | (name, pats) :: rest =>
    match pats.get? 0 with
    | none => .error unwrapMsg
    | some start =>
      if start c then
        match pats.get? 1 with
        | none => .error unwrapMsg
        | some halt => .ok (some (runLiteral kws name halt c l))
      else lexLiteral kws c l rest

/-- The fallback branch of Lexer::parse_next: extend the lexeme until a
whitespace character, emit a keyword token when the lexeme is a
configured keyword, and otherwise panic with no-known-pattern. -/
def lexFallback (l : Lexer) (c : Char) : Except String (Option Token × Lexer) :=
  let r := eatWhileNot l.rules.whitespace l.source l.line [c]
  if r.1 ∈ l.rules.keywords then
    .ok (some ⟨"keyword", r.1, r.2.2⟩, { l with source := r.2.1, line := r.2.2 })
  else .error ("no known pattern exists for " ++ String.mk r.1)

/-- Lexer::parse_next of the source: skip whitespace, return None at end
of input, else take one character and run the operator, literal or
fallback branch. -/
def parse_next (l : Lexer) : Except String (Option Token × Lexer) :=
  match l.skip_whitespace with
  | .error e => .error e
  | .ok l₁ =>
    if l₁.done then .ok (none, l₁)
    else
      match l₁.get with
      | .error e => .error e
      | .ok (c, l₂) =>
        if l₂.rules.operator_start c then runOperator l₂ c
        else
          match lexLiteral l₂.rules.keywords c l₂ l₂.rules.literal_regex with
          | .error e => .error e
          | .ok (some (t, l₃)) => .ok (some t, l₃)
          | .ok none => lexFallback l₂ c

/-- Lexer::next_token of the source: drain the cache when present,
otherwise run parse_next; either way record the result in last_token. -/
def next_token (l : Lexer) : Except String (Option Token × Lexer) :=
  match l.cache with
  | some token =>
    .ok (some token, { l with cache := none, last_token := some token })
  | none =>
    match parse_next l with
    | .error e => .error e
    | .ok (r, l') => .ok (r, { l' with last_token := r })

/-- Lexer::current_token of the source. -/
def current_token (l : Lexer) : Option Token := l.last_token

/-- Lexer::peek_next_token of the source: run next_token and store its
result in the cache. -/
def peek_next_token (l : Lexer) : Except String (Option Token × Lexer) :=
  match next_token l with
  | .error e => .error e
  | .ok (r, l') => .ok (r, { l' with cache := r })

/-- The documented consumer loop (while !lexer.done() { next_token() }),
collecting the produced tokens; fuel bounds the iteration count. -/
def lexAll : Nat → Lexer → Except String (List Token)
  | 0, _ => .ok []
  | fuel + 1, l =>
    if l.done then .ok []
    else
      match next_token l with
      | .error e => .error e
      | .ok (some t, l') =>
        match lexAll fuel l' with
        | .error e => .error e
        | .ok ts => .ok (t :: ts)
      | .ok (none, _) => .ok []

/-! Concrete rule tables and states used to evaluate the engine. -/

/-- A rule table recognizing digit runs, with space as whitespace and no
operators or keywords. -/
def digitsRules : RegexRuleSet :=
  ⟨[], [("number", [fun c => c.isDigit, fun c => !c.isDigit])], [],
    fun _ => false, fun _ => false, fun c => c == ' '⟩

/-- A rule matching a single letter a (start on a, halt everywhere). -/
def rShort : String × List (Char → Bool) :=
  ("a1", [fun c => c == 'a', fun _ => true])

/-- A rule matching from a letter a to the end of the word (start on a,
halt nowhere). -/
def rLong : String × List (Char → Bool) :=
  ("a2", [fun c => c == 'a', fun _ => false])

/-- The two ambiguous rules with the short-match rule first. -/
def c1RulesA : RegexRuleSet :=
  ⟨[], [rShort, rLong], [], fun _ => false, fun _ => false, fun c => c == ' '⟩

/-- The same two ambiguous rules with the long-match rule first. -/
def c1RulesB : RegexRuleSet :=
  ⟨[], [rLong, rShort], [], fun _ => false, fun _ => false, fun c => c == ' '⟩

/-- Rule table whose first literal rule never starts and whose second
recognizes digit runs. -/
def c1wRules : RegexRuleSet :=
  ⟨[], [("skip0", [fun _ => false]),
        ("num", [Char.isDigit, fun c => !c.isDigit])], [],
    fun _ => false, fun _ => false, fun c => c == ' '⟩

/-- A calculator-style table: digit runs plus the + operator named add. -/
def calcRules : RegexRuleSet :=
  ⟨[], [("number", [fun c => c.isDigit, fun c => !c.isDigit])],
    [(['+'], "add")], fun c => c == '+', fun c => c == ' ' || c.isDigit,
    fun c => c == ' '⟩

/-- A table whose str rule starts on x and halts only on y, so a match
can span a newline. -/
def strRules : RegexRuleSet :=
  ⟨[], [("str", [fun c => c == 'x', fun c => c == 'y'])], [],
    fun _ => false, fun _ => false, fun c => c == ' '⟩

/-- Single-letter literals with newline-only whitespace. -/
def abcRules : RegexRuleSet :=
  ⟨[], [("letter", [fun c => c == 'a' || c == 'b' || c == 'c',
        fun c => c == '\n'])], [],
    fun _ => false, fun _ => false, fun c => c == '\n'⟩

/-- Lower-case words with the keyword if. -/
def kwRules : RegexRuleSet :=
  ⟨[['i', 'f']], [("word", [fun c => c.isLower, fun c => c == ' '])], [],
    fun _ => false, fun _ => false, fun c => c == ' '⟩

/-- Keywords only, no literal rules: everything goes to the fallback. -/
def kw2Rules : RegexRuleSet :=
  ⟨[['i', 'f']], [], [], fun _ => false, fun _ => false, fun c => c == ' '⟩

/-- The token produced for the digit 1 at line 0. -/
def t1 : Token := ⟨"number", ['1'], 0⟩

/-- The state after peeking the single token of source 1. -/
def pk1 : Lexer := ⟨[], some t1, some t1, digitsRules, 0⟩

/-- The state after peeking the first token of source 1-space-2. -/
def pk2 : Lexer := ⟨[' ', '2'], some t1, some t1, digitsRules, 0⟩

/-- The state pk2 after its cached token is drained by next_token. -/
def pk2adv : Lexer := ⟨[' ', '2'], some t1, none, digitsRules, 0⟩

/-- The state after lexing the single token of source 1 via next_token. -/
def nt1 : Lexer := ⟨[], some t1, none, digitsRules, 0⟩

/-- The state after the first token of the a-newline-b-newline-c source. -/
def abc1 : Lexer := ⟨['\n', 'b', '\n', 'c'], none, none, abcRules, 0⟩

/-- A pattern compiler that fails exactly on the pattern string "(". -/
def c5compile : String → Option (Char → Bool) :=
  fun s => if s == "(" then none else some (fun _ => true)

/-- A raw rule set whose number rule carries the bad pattern "(". -/
def c5rules : RuleSet := ⟨[], [("number", ["("])], [], "a", "b", "c"⟩

/-! Supporting lemmas about the engine. -/

theorem bumpLine_eq (c : Char) (line : Nat) :
    bumpLine c line = line + (if c = '\n' then 1 else 0) := by
  by_cases h : c = '\n' <;> simp [bumpLine, h]

theorem count_nl_cons (c : Char) (pre : List Char) :
    (c :: pre).count '\n' = (if c = '\n' then 1 else 0) + pre.count '\n' := by
  by_cases h : c = '\n' <;> simp [List.count_cons, h, Nat.add_comm]

theorem skipWs_spec (ws : Char → Bool) (src : List Char) :
    ∀ (line : Nat) (src' : List Char) (line' : Nat),
      skipWs ws src line = some (src', line') →
        ∃ pre, src = pre ++ src' ∧ line' = line + pre.count '\n' ∧ src' ≠ [] := by
  induction src with
  | nil =>
    intro line src' line' h
    simp [skipWs] at h
  | cons c rest ih =>
    intro line src' line' h
    simp only [skipWs] at h
    split at h
    · obtain ⟨pre, h1, h2, h3⟩ := ih _ _ _ h
      refine ⟨c :: pre, by simp [h1], ?_, h3⟩
      rw [h2, bumpLine_eq, count_nl_cons]
      omega
    · simp only [Option.some.injEq, Prod.mk.injEq] at h
      obtain ⟨h1, h2⟩ := h
      exact ⟨[], by simp [← h1], by simp [← h2], by rw [← h1]; simp⟩

theorem skip_whitespace_spec (l l₁ : Lexer) (h : l.skip_whitespace = .ok l₁) :
    ∃ pre, l.source = pre ++ l₁.source ∧ l₁.line = l.line + pre.count '\n' ∧
      l₁.source ≠ [] ∧ l₁.rules = l.rules ∧ l₁.cache = l.cache ∧
      l₁.last_token = l.last_token := by
  unfold Lexer.skip_whitespace at h
  cases hsk : skipWs l.rules.whitespace l.source l.line with
  | none => rw [hsk] at h; simp at h
  | some p =>
    obtain ⟨src, line⟩ := p
    rw [hsk] at h
    simp only [Except.ok.injEq] at h
    obtain ⟨pre, h1, h2, h3⟩ := skipWs_spec _ _ _ _ _ hsk
    subst h
    exact ⟨pre, h1, h2, h3, rfl, rfl, rfl⟩

theorem eatWhileNot_spec (halt : Char → Bool) (src : List Char) :
    ∀ (line : Nat) (lexeme lex' src' : List Char) (line' : Nat),
      eatWhileNot halt src line lexeme = (lex', src', line') →
        ∃ pre, src = pre ++ src' ∧ line' = line + pre.count '\n' ∧
          lex' = lexeme ++ pre := by
  induction src with
  | nil =>
    intro line lexeme lex' src' line' h
    simp only [eatWhileNot, Prod.mk.injEq] at h
    obtain ⟨h1, h2, h3⟩ := h
    exact ⟨[], by simp [← h2], by simp [← h3], by simp [← h1]⟩
  | cons c rest ih =>
    intro line lexeme lex' src' line' h
    simp only [eatWhileNot] at h
    split at h
    · simp only [Prod.mk.injEq] at h
      obtain ⟨h1, h2, h3⟩ := h
      exact ⟨[], by simp [← h2], by simp [← h3], by simp [← h1]⟩
    · obtain ⟨pre, h1, h2, h3⟩ := ih _ _ _ _ _ h
      refine ⟨c :: pre, by simp [h1], ?_, by simp [h3]⟩
      rw [h2, bumpLine_eq, count_nl_cons]
      omega

theorem runLiteral_spec (kws : List (List Char)) (name : String)
    (halt : Char → Bool) (c : Char) (l : Lexer) (t : Token) (l' : Lexer)
    (h : runLiteral kws name halt c l = (t, l')) :
    t.line = l'.line ∧ (t.value ∈ kws → t.token_type = "keyword") ∧
    ∃ pre, l.source = pre ++ l'.source ∧ l'.line = l.line + pre.count '\n' ∧
      l'.rules = l.rules ∧ l'.cache = l.cache ∧ l'.last_token = l.last_token := by
  simp only [runLiteral] at h
  rcases he : eatWhileNot halt l.source l.line [c] with ⟨lex, src', line'⟩
  rw [he] at h
  simp only [Prod.mk.injEq] at h
  obtain ⟨h1, h2⟩ := h
  obtain ⟨pre, e1, e2, e3⟩ := eatWhileNot_spec halt l.source l.line [c] lex src' line' he
  subst h2
  refine ⟨by rw [← h1], ?_, pre, e1, e2, rfl, rfl, rfl⟩
  intro hmem
  rw [← h1] at hmem ⊢
  simp only at hmem
  simp [hmem]

theorem lexLiteral_ok_spec (kws : List (List Char)) (c : Char) (l : Lexer) :
    ∀ (rules : List (String × List (Char → Bool))) (t : Token) (l' : Lexer),
      lexLiteral kws c l rules = .ok (some (t, l')) →
        t.line = l'.line ∧ (t.value ∈ kws → t.token_type = "keyword") ∧
        ∃ pre, l.source = pre ++ l'.source ∧ l'.line = l.line + pre.count '\n' ∧
          l'.rules = l.rules ∧ l'.cache = l.cache ∧
          l'.last_token = l.last_token := by
  intro rules
  induction rules with
  | nil =>
    intro t l' h
    simp [lexLiteral] at h
  | cons e rest ih =>
    intro t l' h
    obtain ⟨name, pats⟩ := e
    simp only [lexLiteral] at h
    cases hg0 : pats.get? 0 with
    | none => rw [hg0] at h; simp at h
    | some start =>
      rw [hg0] at h
      simp only at h
      split at h
      · cases hg1 : pats.get? 1 with
        | none => rw [hg1] at h; simp at h
        | some halt =>
          rw [hg1] at h
          simp only [Except.ok.injEq, Option.some.injEq] at h
          exact runLiteral_spec kws name halt c l t l' h
      · exact ih t l' h

theorem runOperator_spec (l : Lexer) (c : Char) (r : Option Token) (l' : Lexer)
    (h : runOperator l c = .ok (r, l')) :
    (∃ t, r = some t ∧ t.line = l'.line) ∧
    ∃ pre, l.source = pre ++ l'.source ∧ l'.line = l.line + pre.count '\n' ∧
      l'.rules = l.rules ∧ l'.cache = l.cache ∧ l'.last_token = l.last_token := by
  simp only [runOperator] at h
  rcases he : eatWhileNot l.rules.operator_halt l.source l.line [c] with
    ⟨lex, src', line'⟩
  rw [he] at h
  simp only at h
  cases hlk : (l.rules.operators.lookup lex) with
  | none => rw [hlk] at h; simp at h
  | some v =>
    rw [hlk] at h
    simp only [Except.ok.injEq, Prod.mk.injEq] at h
    obtain ⟨h1, h2⟩ := h
    obtain ⟨pre, e1, e2, e3⟩ :=
      eatWhileNot_spec l.rules.operator_halt l.source l.line [c] lex src' line' he
    subst h2
    exact ⟨⟨_, h1.symm, rfl⟩, pre, e1, e2, rfl, rfl, rfl⟩

theorem lexFallback_spec (l : Lexer) (c : Char) (r : Option Token) (l' : Lexer)
    (h : lexFallback l c = .ok (r, l')) :
    (∃ t, r = some t ∧ t.line = l'.line) ∧
    ∃ pre, l.source = pre ++ l'.source ∧ l'.line = l.line + pre.count '\n' ∧
      l'.rules = l.rules ∧ l'.cache = l.cache ∧ l'.last_token = l.last_token := by
  simp only [lexFallback] at h
  rcases he : eatWhileNot l.rules.whitespace l.source l.line [c] with
    ⟨lex, src', line'⟩
  rw [he] at h
  simp only at h
  split at h
  · simp only [Except.ok.injEq, Prod.mk.injEq] at h
    obtain ⟨h1, h2⟩ := h
    obtain ⟨pre, e1, e2, e3⟩ :=
      eatWhileNot_spec l.rules.whitespace l.source l.line [c] lex src' line' he
    subst h2
    exact ⟨⟨_, h1.symm, rfl⟩, pre, e1, e2, rfl, rfl, rfl⟩
  · simp at h

theorem parse_next_spec (l : Lexer) (r : Option Token) (l' : Lexer)
    (h : parse_next l = .ok (r, l')) :
    (∃ t, r = some t ∧ t.line = l'.line) ∧
    (∃ pre, pre ≠ [] ∧ l.source = pre ++ l'.source ∧
      l'.line = l.line + pre.count '\n') ∧
    l'.rules = l.rules ∧ l'.cache = l.cache ∧ l'.last_token = l.last_token := by
  unfold parse_next at h
  split at h
  · simp at h
  · rename_i l₁ heq
    obtain ⟨pre₀, hp1, hp2, hne, hrl, hca, hla⟩ := skip_whitespace_spec l l₁ heq
    obtain ⟨c, src₁, hsrc⟩ := List.exists_cons_of_ne_nil hne
    have hdone : ¬ (l₁.done = true) := by simp [Lexer.done, hsrc]
    rw [if_neg hdone] at h
    have hcomb : ∀ (l₂ l' : Lexer) (pre₁ : List Char),
        l₂ = { l₁ with source := src₁, line := bumpLine c l₁.line } →
        l₂.source = pre₁ ++ l'.source →
        l'.line = l₂.line + pre₁.count '\n' →
        (∃ pre, pre ≠ [] ∧ l.source = pre ++ l'.source ∧
          l'.line = l.line + pre.count '\n') := by
      intro l₂ l' pre₁ hdef e1 e2
      subst hdef
      refine ⟨pre₀ ++ c :: pre₁, by simp, ?_, ?_⟩
      · rw [hp1, hsrc]
        simp only at e1
        rw [e1]
        simp
      · simp only at e2
        rw [e2, bumpLine_eq, hp2, List.count_append, count_nl_cons]
        omega
    split at h
    · rename_i p heq2
      exact absurd heq2 (by simp [Lexer.get, hsrc])
    · rename_i p c' l₂ heq2
      rw [Lexer.get, hsrc] at heq2
      simp only [Except.ok.injEq, Prod.mk.injEq] at heq2
      obtain ⟨hc', hl₂⟩ := heq2
      subst hc'
      split at h
      · obtain ⟨⟨t, ht1, ht2⟩, pre₁, e1, e2, e3, e4, e5⟩ :=
          runOperator_spec l₂ c r l' h
        refine ⟨⟨t, ht1, ht2⟩, hcomb l₂ l' pre₁ hl₂.symm e1 ?_, ?_, ?_, ?_⟩
        · exact e2
        · rw [e3, hl₂.symm]
          exact hrl
        · rw [e4, hl₂.symm]
          exact hca
        · rw [e5, hl₂.symm]
          exact hla
      · split at h
        · simp at h
        · rename_i p2 t l₃ heq3
          simp only [Except.ok.injEq, Prod.mk.injEq] at h
          obtain ⟨h1, h2⟩ := h
          subst h2
          obtain ⟨ht, hkwt, pre₁, e1, e2, e3, e4, e5⟩ :=
            lexLiteral_ok_spec l₂.rules.keywords c l₂ l₂.rules.literal_regex t l₃ heq3
          refine ⟨⟨t, h1.symm, ht⟩, hcomb l₂ l₃ pre₁ hl₂.symm e1 e2, ?_, ?_, ?_⟩
          · rw [e3, hl₂.symm]
            exact hrl
          · rw [e4, hl₂.symm]
            exact hca
          · rw [e5, hl₂.symm]
            exact hla
        · obtain ⟨⟨t, ht1, ht2⟩, pre₁, e1, e2, e3, e4, e5⟩ :=
            lexFallback_spec l₂ c r l' h
          refine ⟨⟨t, ht1, ht2⟩, hcomb l₂ l' pre₁ hl₂.symm e1 e2, ?_, ?_, ?_⟩
          · rw [e3, hl₂.symm]
            exact hrl
          · rw [e4, hl₂.symm]
            exact hca
          · rw [e5, hl₂.symm]
            exact hla

theorem next_token_spec (l : Lexer) (r : Option Token) (l' : Lexer)
    (h : next_token l = .ok (r, l')) :
    l'.source.length ≤ l.source.length ∧ l.line ≤ l'.line ∧
    l'.rules = l.rules ∧
    (l.cache = none → l'.source.length < l.source.length ∧ ∃ t, r = some t) ∧
    (∀ t, l.cache = some t → l'.source = l.source ∧ l'.line = l.line ∧
      r = some t) := by
  unfold next_token at h
  split at h
  · rename_i token heq
    simp only [Except.ok.injEq, Prod.mk.injEq] at h
    obtain ⟨h1, h2⟩ := h
    subst h2
    refine ⟨Nat.le_refl _, Nat.le_refl _, rfl, ?_, ?_⟩
    · intro hnone
      rw [heq] at hnone
      cases hnone
    · intro t ht
      rw [heq] at ht
      injection ht with ht
      exact ⟨rfl, rfl, by rw [← h1, ht]⟩
  · rename_i heq
    split at h
    · simp at h
    · rename_i p r₀ l'' heq2
      simp only [Except.ok.injEq, Prod.mk.injEq] at h
      obtain ⟨h1, h2⟩ := h
      subst h1
      subst h2
      obtain ⟨⟨t, ht1, ht2⟩, ⟨pre, hpne, hp1, hp2⟩, e3, e4, e5⟩ :=
        parse_next_spec l r₀ l'' heq2
      have hlen : 0 < pre.length := List.length_pos.mpr hpne
      refine ⟨?_, ?_, e3, ?_, ?_⟩
      · rw [hp1]
        simp
      · rw [hp2]
        exact Nat.le_add_right _ _
      · intro _
        refine ⟨?_, t, ht1⟩
        show l''.source.length < l.source.length
        rw [hp1, List.length_append]
        omega
      · intro t' ht'
        rw [heq] at ht'
        cases ht'

theorem peek_unfold (l : Lexer) (r : Option Token) (l₁ : Lexer)
    (h : peek_next_token l = .ok (r, l₁)) :
    ∃ l', next_token l = .ok (r, l') ∧ l₁ = { l' with cache := r } := by
  unfold peek_next_token at h
  split at h
  · simp at h
  · rename_i p r₀ l'' heq
    simp only [Except.ok.injEq, Prod.mk.injEq] at h
    obtain ⟨h1, h2⟩ := h
    subst h1
    exact ⟨l'', heq, h2.symm⟩

theorem lexLiteral_append (kws : List (List Char)) (c : Char) (l : Lexer)
    (pre rs : List (String × List (Char → Bool)))
    (hpre : ∀ e ∈ pre, ∃ s0 tl, e.2 = s0 :: tl ∧ s0 c = false) :
    lexLiteral kws c l (pre ++ rs) = lexLiteral kws c l rs := by
  induction pre with
  | nil => rfl
  | cons e rest ih =>
    obtain ⟨name, pats⟩ := e
    obtain ⟨s0, tl, he, hf⟩ := hpre (name, pats) (by simp)
    simp only at he
    subst he
    show lexLiteral kws c l ((name, s0 :: tl) :: (rest ++ rs)) = _
    simp only [lexLiteral, List.get?]
    rw [hf]
    simp only [Bool.false_eq_true, if_false]
    exact ih (fun e heq => hpre e (by simp [heq]))

theorem lexLiteral_none (kws : List (List Char)) (c : Char) (l : Lexer)
    (rules : List (String × List (Char → Bool)))
    (hall : ∀ e ∈ rules, ∃ s0 tl, e.2 = s0 :: tl ∧ s0 c = false) :
    lexLiteral kws c l rules = .ok none := by
  have h2 := lexLiteral_append kws c l rules [] hall
  rw [List.append_nil] at h2
  rw [h2]
  rfl

/-- Claim C1, counterexample: on source ab, with a short-match rule a1
(halts everywhere after a) and a long-match rule a2 (halts nowhere), the
scanner emits the token of whichever rule comes first in table order,
although the a2 match at offset 0 is strictly longer: with a1 first the
selected match has length 1 while a length-2 match of a2 exists, so the
engine does not select the greatest matched length regardless of rule
order. -/
theorem C1_counterexample :
    (parse_next (Lexer.init c1RulesA ['a', 'b'])).map Prod.fst =
      .ok (some ⟨"a1", ['a'], 0⟩) ∧
    (parse_next (Lexer.init c1RulesB ['a', 'b'])).map Prod.fst =
      .ok (some ⟨"a2", ['a', 'b'], 0⟩) ∧
    (⟨"a1", ['a'], 0⟩ : Token).value.length <
      (⟨"a2", ['a', 'b'], 0⟩ : Token).value.length :=
  ⟨rfl, rfl, by decide⟩

/-- Claim C1, amended: after whitespace skipping, when the operator
start pattern does not match the first character, the scanner commits to
the FIRST rule of the literal table (in iteration order) whose start
pattern matches that single character, extends the lexeme with that
rule's halt pattern alone, and emits that rule's token; no cross-rule
length comparison takes place. -/
theorem C1_first_match_wins (l l₁ : Lexer) (c : Char) (src₁ : List Char)
    (pre post : List (String × List (Char → Bool))) (name : String)
    (s hl : Char → Bool) (ps : List (Char → Bool))
    (hskip : l.skip_whitespace = .ok l₁)
    (hsrc : l₁.source = c :: src₁)
    (hop : l.rules.operator_start c = false)
    (hrules : l.rules.literal_regex = pre ++ (name, s :: hl :: ps) :: post)
    (hpre : ∀ e ∈ pre, ∃ s0 tl, e.2 = s0 :: tl ∧ s0 c = false)
    (hs : s c = true) :
    parse_next l =
      .ok (some (runLiteral l.rules.keywords name hl c
          { l₁ with source := src₁, line := bumpLine c l₁.line }).1,
        (runLiteral l.rules.keywords name hl c
          { l₁ with source := src₁, line := bumpLine c l₁.line }).2) := by
  obtain ⟨pre₀, hp1, hp2, hne, hrl, hca, hla⟩ := skip_whitespace_spec l l₁ hskip
  unfold parse_next
  split
  · rename_i e heq
    rw [hskip] at heq
    cases heq
  · rename_i l₁x heq
    rw [hskip] at heq
    injection heq with heq
    subst heq
    have hd : ¬ (l₁.done = true) := by simp [Lexer.done, hsrc]
    rw [if_neg hd]
    have hget : l₁.get =
        .ok (c, { l₁ with source := src₁, line := bumpLine c l₁.line }) := by
      simp [Lexer.get, hsrc]
    split
    · rename_i e heq2
      rw [hget] at heq2
      cases heq2
    · rename_i p cx l₂ heq2
      rw [hget] at heq2
      injection heq2 with heq2
      injection heq2 with hcx hl₂
      subst hcx
      subst hl₂
      have hop2 : ¬ (({ l₁ with source := src₁, line := bumpLine c l₁.line } : Lexer).rules.operator_start c = true) := by
        show ¬ (l₁.rules.operator_start c = true)
        rw [hrl, hop]
        simp
      rw [if_neg hop2]
      have hlex : lexLiteral ({ l₁ with source := src₁, line := bumpLine c l₁.line } : Lexer).rules.keywords c { l₁ with source := src₁, line := bumpLine c l₁.line } ({ l₁ with source := src₁, line := bumpLine c l₁.line } : Lexer).rules.literal_regex = .ok (some (runLiteral l.rules.keywords name hl c { l₁ with source := src₁, line := bumpLine c l₁.line })) := by
        show lexLiteral l₁.rules.keywords c _ l₁.rules.literal_regex = _
        rw [hrl, hrules, lexLiteral_append _ _ _ _ _ hpre]
        simp only [lexLiteral, List.get?]
        rw [hs]
        simp
      split
      · rename_i e heq3
        rw [hlex] at heq3
        cases heq3
      · rename_i p2 t l₃ heq3
        rw [hlex] at heq3
        injection heq3 with heq3
        injection heq3 with heq3
        rw [heq3]
      · rename_i p2 heq3
        rw [hlex] at heq3
        injection heq3 with heq3
        cases heq3

/-- Claim C1, witness for the amended theorem: on the table whose first
rule never starts and whose second recognizes digit runs, source 7
produces the second rule's token via the amended first-match theorem. -/
theorem C1_witness :
    parse_next (Lexer.init c1wRules ['7']) =
      .ok (some ⟨"num", ['7'], 0⟩, ⟨[], none, none, c1wRules, 0⟩) := by
  have h := C1_first_match_wins (Lexer.init c1wRules ['7'])
    (Lexer.init c1wRules ['7']) '7' []
    [("skip0", [fun _ => false])] [] "num" Char.isDigit
    (fun c => !c.isDigit) [] rfl rfl rfl rfl
    (by
      intro e he
      simp only [List.mem_singleton] at he
      subst he
      exact ⟨_, _, rfl, rfl⟩)
    rfl
  exact h

/-- Claim C2, counterexample: on the digit table, scanning 1-space-hash
yields number(1) and then the next per-token call panics with the
no-known-pattern message instead of returning an UnrecognizedPattern
error value. -/
theorem C2_counterexample :
    (next_token (Lexer.init digitsRules ['1', ' ', '#', ' ', '2'])).map
        Prod.fst = .ok (some ⟨"number", ['1'], 0⟩) ∧
    ((next_token (Lexer.init digitsRules ['1', ' ', '#', ' ', '2'])).bind
        (fun p => next_token p.2)) =
      .error "no known pattern exists for #" :=
  ⟨rfl, rfl⟩

/-- Claim C2, amended: when no rule matches at the current position the
scanner consumes the whole maximal run of non-whitespace characters
starting there and, if that run is not a configured keyword, panics with
a message naming the run; no error value is returned and no token is
produced. -/
theorem C2_fallback_panics (l l₁ : Lexer) (c : Char) (src₁ : List Char)
    (hskip : l.skip_whitespace = .ok l₁)
    (hsrc : l₁.source = c :: src₁)
    (hop : l.rules.operator_start c = false)
    (hlit : ∀ e ∈ l.rules.literal_regex, ∃ s0 tl, e.2 = s0 :: tl ∧ s0 c = false)
    (hkw : (eatWhileNot l.rules.whitespace src₁ (bumpLine c l₁.line) [c]).1 ∉
      l.rules.keywords) :
    parse_next l = .error ("no known pattern exists for " ++
      String.mk (eatWhileNot l.rules.whitespace src₁
        (bumpLine c l₁.line) [c]).1) := by
  obtain ⟨pre₀, hp1, hp2, hne, hrl, hca, hla⟩ := skip_whitespace_spec l l₁ hskip
  unfold parse_next
  split
  · rename_i e heq
    rw [hskip] at heq
    cases heq
  · rename_i l₁x heq
    rw [hskip] at heq
    injection heq with heq
    subst heq
    have hd : ¬ (l₁.done = true) := by simp [Lexer.done, hsrc]
    rw [if_neg hd]
    have hget : l₁.get =
        .ok (c, { l₁ with source := src₁, line := bumpLine c l₁.line }) := by
      simp [Lexer.get, hsrc]
    split
    · rename_i e heq2
      rw [hget] at heq2
      cases heq2
    · rename_i p cx l₂ heq2
      rw [hget] at heq2
      injection heq2 with heq2
      injection heq2 with hcx hl₂
      subst hcx
      subst hl₂
      have hop2 : ¬ (({ l₁ with source := src₁, line := bumpLine c l₁.line } : Lexer).rules.operator_start c = true) := by
        show ¬ (l₁.rules.operator_start c = true)
        rw [hrl, hop]
        simp
      rw [if_neg hop2]
      have hlex : lexLiteral ({ l₁ with source := src₁, line := bumpLine c l₁.line } : Lexer).rules.keywords c { l₁ with source := src₁, line := bumpLine c l₁.line } ({ l₁ with source := src₁, line := bumpLine c l₁.line } : Lexer).rules.literal_regex = .ok none := by
        show lexLiteral l₁.rules.keywords c _ l₁.rules.literal_regex = _
        rw [hrl]
        exact lexLiteral_none _ _ _ _ hlit
      split
      · rename_i e heq3
        rw [hlex] at heq3
        cases heq3
      · rename_i p2 t l₃ heq3
        rw [hlex] at heq3
        injection heq3 with heq3
        cases heq3
      · rename_i p2 heq3
        show lexFallback { l₁ with source := src₁, line := bumpLine c l₁.line } c = _
        simp only [lexFallback]
        rw [hrl]
        rw [if_neg hkw]

/-- Claim C2, witness for the amended theorem: on the digit table the
source hash-a-space-b reaches the fallback, consumes the two-character
run hash-a and panics naming it. -/
theorem C2_witness :
    parse_next (Lexer.init digitsRules ['#', 'a', ' ', 'b']) =
      .error "no known pattern exists for #a" := by
  have h := C2_fallback_panics (Lexer.init digitsRules ['#', 'a', ' ', 'b'])
    (Lexer.init digitsRules ['#', 'a', ' ', 'b']) '#' ['a', ' ', 'b']
    rfl rfl rfl
    (by
      intro e he
      simp only [Lexer.init, digitsRules, List.mem_singleton] at he
      subst he
      exact ⟨_, _, rfl, rfl⟩)
    (by decide)
  exact h

/-- Claim C3: evaluating the engine at the failing inputs.  On an
all-whitespace source (and on the empty source) the first per-token call
panics with the out-of-bounds indexing of ch() on an emptied buffer
instead of reporting end of file, and done() is still false before the
call on the non-empty whitespace source. -/
theorem C3_whitespace_input_panics :
    next_token (Lexer.init digitsRules [' ']) = .error idxMsg ∧
    next_token (Lexer.init digitsRules []) = .error idxMsg ∧
    (Lexer.init digitsRules [' ']).done = false :=
  ⟨rfl, rfl, rfl⟩

/-- Claim C4, counterexample: the + lexeme is matched through the
operators map entry named add, yet the produced token_type is the
hard-wired string operator, not the configured name; the engine has a
dedicated operator code path. -/
theorem C4_counterexample :
    (parse_next (Lexer.init calcRules ['+'])).map Prod.fst =
      .ok (some ⟨"operator", ['+'], 0⟩) ∧
    calcRules.operators.lookup ['+'] = some "add" ∧
    "operator" ≠ "add" :=
  ⟨rfl, rfl, by decide⟩

/-- Claim C4, amended: token classification is not uniform: the operator
branch always emits the built-in token_type operator (the configured
operator name is only used for the lookup), while a literal-branch token
gets the built-in token_type keyword when the lexeme is a configured
keyword and the rule's own name otherwise. -/
theorem C4_builtin_token_types (l l₁ : Lexer) (c : Char) (src₁ : List Char)
    (hskip : l.skip_whitespace = .ok l₁)
    (hsrc : l₁.source = c :: src₁)
    (hopc : l.rules.operator_start c = true)
    (hlk : (l.rules.operators.lookup
      (eatWhileNot l.rules.operator_halt src₁ (bumpLine c l₁.line) [c]).1).isSome) :
    parse_next l = .ok (some ⟨"operator",
        (eatWhileNot l.rules.operator_halt src₁ (bumpLine c l₁.line) [c]).1,
        (eatWhileNot l.rules.operator_halt src₁ (bumpLine c l₁.line) [c]).2.2⟩,
      { l₁ with source := (eatWhileNot l.rules.operator_halt src₁ (bumpLine c l₁.line) [c]).2.1, line := (eatWhileNot l.rules.operator_halt src₁ (bumpLine c l₁.line) [c]).2.2 }) ∧
    (∀ (kws : List (List Char)) (name : String) (halt : Char → Bool)
        (cx : Char) (lx : Lexer),
      (runLiteral kws name halt cx lx).1.token_type =
        (if (eatWhileNot halt lx.source lx.line [cx]).1 ∈ kws then "keyword"
         else name)) := by
  obtain ⟨pre₀, hp1, hp2, hne, hrl, hca, hla⟩ := skip_whitespace_spec l l₁ hskip
  refine ⟨?_, ?_⟩
  · unfold parse_next
    split
    · rename_i e heq
      rw [hskip] at heq
      cases heq
    · rename_i l₁x heq
      rw [hskip] at heq
      injection heq with heq
      subst heq
      have hd : ¬ (l₁.done = true) := by simp [Lexer.done, hsrc]
      rw [if_neg hd]
      have hget : l₁.get =
          .ok (c, { l₁ with source := src₁, line := bumpLine c l₁.line }) := by
        simp [Lexer.get, hsrc]
      split
      · rename_i e heq2
        rw [hget] at heq2
        cases heq2
      · rename_i p cx l₂ heq2
        rw [hget] at heq2
        injection heq2 with heq2
        injection heq2 with hcx hl₂
        subst hcx
        subst hl₂
        have hopt : (({ l₁ with source := src₁, line := bumpLine c l₁.line } : Lexer).rules.operator_start c = true) := by
          show l₁.rules.operator_start c = true
          rw [hrl]
          exact hopc
        rw [if_pos hopt]
        show runOperator { l₁ with source := src₁, line := bumpLine c l₁.line } c = _
        simp only [runOperator]
        rw [hrl]
        obtain ⟨v, hv⟩ := Option.isSome_iff_exists.mp hlk
        split
        · rename_i heqL
          rw [hv] at heqL
          cases heqL
        · rfl
  · intro kws name halt cx lx
    simp [runLiteral]

/-- Claim C4, witness for the amended theorem: on the calculator table
the + source yields the operator token via the amended theorem, and the
literal branch gives a non-keyword lexeme its rule name. -/
theorem C4_witness :
    parse_next (Lexer.init calcRules ['+']) =
      .ok (some ⟨"operator", ['+'], 0⟩, ⟨[], none, none, calcRules, 0⟩) ∧
    (runLiteral [] "number" (fun c => !c.isDigit) '5'
      (Lexer.init calcRules [])).1.token_type = "number" := by
  have h := C4_builtin_token_types (Lexer.init calcRules ['+'])
    (Lexer.init calcRules ['+']) '+' [] rfl rfl rfl rfl
  refine ⟨h.1, ?_⟩
  have h2 := h.2 [] "number" (fun c => !c.isDigit) '5' (Lexer.init calcRules [])
  simpa using h2

theorem compileList_error (compile : String → Option (Char → Bool)) :
    ∀ (pats : List String) (p : String), p ∈ pats → compile p = none →
      ∃ e, compileList compile pats = .error e := by
  intro pats
  induction pats with
  | nil =>
    intro p hp hn
    simp at hp
  | cons q rest ih =>
    intro p hp hn
    rcases List.mem_cons.mp hp with h | h
    · subst h
      refine ⟨unwrapMsg, ?_⟩
      simp only [compileList]
      rw [hn]
    · cases hq : compile q with
      | none =>
        refine ⟨unwrapMsg, ?_⟩
        simp only [compileList]
        rw [hq]
      | some rg =>
        obtain ⟨e, he⟩ := ih p h hn
        refine ⟨e, ?_⟩
        simp only [compileList]
        rw [hq, he]

theorem compileLits_error (compile : String → Option (Char → Bool)) :
    ∀ (lits : List (String × List String)) (name : String)
      (pats : List String) (p : String),
      (name, pats) ∈ lits → p ∈ pats → compile p = none →
        ∃ e, compileLits compile lits = .error e := by
  intro lits
  induction lits with
  | nil =>
    intro name pats p hmem hp hn
    simp at hmem
  | cons q rest ih =>
    intro name pats p hmem hp hn
    obtain ⟨n0, ps0⟩ := q
    rcases List.mem_cons.mp hmem with h | h
    · injection h with h1 h2
      subst h1
      subst h2
      obtain ⟨e, he⟩ := compileList_error compile pats p hp hn
      refine ⟨e, ?_⟩
      simp only [compileLits]
      rw [he]
    · cases hq : compileList compile ps0 with
      | error e =>
        refine ⟨e, ?_⟩
        simp only [compileLits]
        rw [hq]
      | ok rs0 =>
        obtain ⟨e, he⟩ := ih name pats p h hp hn
        refine ⟨e, ?_⟩
        simp only [compileLits]
        rw [hq, he]

/-- Claim C5, counterexample: with a compiler failing on the pattern
string of the rule named number, construction panics with the generic
unwrap message (which names no rule) rather than returning a
RuleCompilationError value to the caller. -/
theorem C5_counterexample :
    RegexRuleSet.from c5compile c5rules = .error unwrapMsg ∧
    c5compile "(" = none ∧
    ("number", ["("]) ∈ c5rules.literal_regex :=
  ⟨rfl, rfl, by decide⟩

/-- Claim C5, amended: if any configured pattern string fails to
compile, rule-table construction panics (the unwrap on Regex::new),
aborting instead of returning an error value, and no rule table at all
is produced; the panic message does not identify the offending rule. -/
theorem C5_construction_panics (compile : String → Option (Char → Bool))
    (rs : RuleSet)
    (h : (∃ name pats p, (name, pats) ∈ rs.literal_regex ∧ p ∈ pats ∧
        compile p = none) ∨
      compile rs.operator_start = none ∨ compile rs.operator_halt = none ∨
      compile rs.whitespace = none) :
    ∃ msg, RegexRuleSet.from compile rs = .error msg := by
  unfold RegexRuleSet.from
  rcases h with ⟨name, pats, p, hmem, hp, hn⟩ | hn | hn | hn
  · obtain ⟨e, he⟩ := compileLits_error compile rs.literal_regex name pats p hmem hp hn
    rw [he]
    exact ⟨e, rfl⟩
  · cases hc : compileLits compile rs.literal_regex with
    | error e => exact ⟨e, rfl⟩
    | ok lits =>
      rw [hn]
      exact ⟨unwrapMsg, rfl⟩
  · cases hc : compileLits compile rs.literal_regex with
    | error e => exact ⟨e, rfl⟩
    | ok lits =>
      cases h1 : compile rs.operator_start with
      | none => exact ⟨unwrapMsg, rfl⟩
      | some os =>
        rw [hn]
        exact ⟨unwrapMsg, rfl⟩
  · cases hc : compileLits compile rs.literal_regex with
    | error e => exact ⟨e, rfl⟩
    | ok lits =>
      cases h1 : compile rs.operator_start with
      | none => exact ⟨unwrapMsg, rfl⟩
      | some os =>
        cases h2 : compile rs.operator_halt with
        | none => exact ⟨unwrapMsg, rfl⟩
        | some oh =>
          rw [hn]
          exact ⟨unwrapMsg, rfl⟩

/-- Claim C5, witness for the amended theorem: the bad pattern of the
number rule makes the whole construction fail with a panic. -/
theorem C5_witness :
    (("number", ["("]) ∈ c5rules.literal_regex ∧ "(" ∈ ["("] ∧
      c5compile "(" = none) ∧
    ∃ msg, RegexRuleSet.from c5compile c5rules = .error msg :=
  ⟨⟨by decide, by decide, rfl⟩,
    C5_construction_panics c5compile c5rules
      (Or.inl ⟨"number", ["("], "(", by decide, by decide, rfl⟩)⟩

/-- Claim C6: tokenization is deterministic for a fixed compiled rule
table and source: two runs of the consumer loop over equal tables and
equal sources produce equal token sequences (the embedding is a pure
function of the table list order and the source, so ties between rules
are resolved identically on every run). -/
theorem C6_deterministic (fuel : Nat) (r₁ r₂ : RegexRuleSet)
    (s₁ s₂ : List Char) (hr : r₁ = r₂) (hs : s₁ = s₂) :
    lexAll fuel (Lexer.init r₁ s₁) = lexAll fuel (Lexer.init r₂ s₂) := by
  subst hr
  subst hs
  rfl

/-- Claim C6, witness: two runs over the digit table and the source
1-space-2 coincide. -/
theorem C6_witness :
    digitsRules = digitsRules ∧
    lexAll 6 (Lexer.init digitsRules ['1', ' ', '2']) =
      lexAll 6 (Lexer.init digitsRules ['1', ' ', '2']) :=
  ⟨rfl, C6_deterministic 6 digitsRules digitsRules ['1', ' ', '2']
    ['1', ' ', '2'] rfl rfl⟩

theorem next_token_extra (l : Lexer) (r : Option Token) (l' : Lexer)
    (h : next_token l = .ok (r, l')) :
    l'.last_token = r ∧ ∃ t, r = some t := by
  unfold next_token at h
  split at h
  · rename_i token heq
    simp only [Except.ok.injEq, Prod.mk.injEq] at h
    obtain ⟨h1, h2⟩ := h
    subst h2
    exact ⟨h1, token, h1.symm⟩
  · rename_i heq
    split at h
    · simp at h
    · rename_i p r₀ l'' heq2
      simp only [Except.ok.injEq, Prod.mk.injEq] at h
      obtain ⟨h1, h2⟩ := h
      subst h1
      subst h2
      obtain ⟨⟨t, ht1, _⟩, _⟩ := parse_next_spec l _ l'' heq2
      exact ⟨rfl, t, ht1⟩

/-- Claim C7: peek is idempotent.  Whenever a peek returns a result (it
always carries a token), the result is cached; peeking again returns the
same result and the very same state (so the remaining text does not
shrink after the first call), and a subsequent next_token returns the
same cached result while clearing the cache. -/
theorem C7_peek_idempotent (l : Lexer) (r : Option Token) (l₁ : Lexer)
    (h : peek_next_token l = .ok (r, l₁)) :
    (∃ t, r = some t) ∧ l₁.cache = r ∧
    peek_next_token l₁ = .ok (r, l₁) ∧
    next_token l₁ = .ok (r, { l₁ with cache := none }) := by
  obtain ⟨l', hnt, hdef⟩ := peek_unfold l r l₁ h
  obtain ⟨hlast, t, hr⟩ := next_token_extra l r l' hnt
  subst hr
  subst hdef
  obtain ⟨s, lt, ch, ru, li⟩ := l'
  simp only at hlast
  subst hlast
  exact ⟨⟨t, rfl⟩, rfl, rfl, rfl⟩

/-- Claim C7, witness: peeking the digit source 1 caches number(1);
a second peek returns the same result and state, and next_token then
drains the cache. -/
theorem C7_witness :
    peek_next_token (Lexer.init digitsRules ['1']) = .ok (some t1, pk1) ∧
    pk1.cache = some t1 ∧
    peek_next_token pk1 = .ok (some t1, pk1) ∧
    next_token pk1 = .ok (some t1, { pk1 with cache := none }) := by
  refine ⟨rfl, ?_, ?_, ?_⟩
  · exact (C7_peek_idempotent (Lexer.init digitsRules ['1'])
      (some t1) pk1 rfl).2.1
  · exact (C7_peek_idempotent (Lexer.init digitsRules ['1'])
      (some t1) pk1 rfl).2.2.1
  · exact (C7_peek_idempotent (Lexer.init digitsRules ['1'])
      (some t1) pk1 rfl).2.2.2

/-- Claim C8, counterexample: after a peek has consumed and cached
number(1) from source 1-space-2, the following next_token is served from
the cache: the prior call returned a token (not end of file) and yet the
remaining length stays 2 instead of strictly decreasing. -/
theorem C8_counterexample :
    peek_next_token (Lexer.init digitsRules ['1', ' ', '2']) =
      .ok (some t1, pk2) ∧
    next_token pk2 = .ok (some t1, pk2adv) ∧
    pk2adv.source.length = pk2.source.length ∧
    pk2.source.length = 2 :=
  ⟨rfl, rfl, rfl, rfl⟩

/-- Claim C8, amended: on every successful advance or peek the remaining
length never grows and the line counter never shrinks (the single
Option-typed cache field can hold at most one lookahead by construction);
the remaining length strictly decreases exactly when the call runs the
matcher (empty cache), while a call served from the cache leaves the
remaining text and line untouched. -/
theorem C8_state_invariant (l : Lexer) (r : Option Token) (l' : Lexer)
    (h : next_token l = .ok (r, l') ∨ peek_next_token l = .ok (r, l')) :
    l'.source.length ≤ l.source.length ∧ l.line ≤ l'.line ∧
    (l.cache = none → l'.source.length < l.source.length) ∧
    (∀ t, l.cache = some t → l'.source = l.source ∧ l'.line = l.line) := by
  cases h with
  | inl h =>
    obtain ⟨a, b, _, hc, hd⟩ := next_token_spec l r l' h
    exact ⟨a, b, fun hn => (hc hn).1,
      fun t ht => ⟨(hd t ht).1, (hd t ht).2.1⟩⟩
  | inr h =>
    obtain ⟨l'', hnt, hdef⟩ := peek_unfold l r l' h
    obtain ⟨a, b, _, hc, hd⟩ := next_token_spec l r l'' hnt
    subst hdef
    exact ⟨a, b, fun hn => (hc hn).1,
      fun t ht => ⟨(hd t ht).1, (hd t ht).2.1⟩⟩

/-- Claim C8, witness for the amended theorem: advancing from a fresh
state (empty cache) over the digit source 1 strictly shrinks the
remaining text and does not decrease the line counter. -/
theorem C8_witness :
    (Lexer.init digitsRules ['1']).cache = none ∧
    next_token (Lexer.init digitsRules ['1']) = .ok (some t1, nt1) ∧
    nt1.source.length < (Lexer.init digitsRules ['1']).source.length ∧
    (Lexer.init digitsRules ['1']).line ≤ nt1.line := by
  refine ⟨rfl, rfl, ?_, ?_⟩
  · exact (C8_state_invariant (Lexer.init digitsRules ['1']) (some t1) nt1
      (Or.inl rfl)).2.2.1 rfl
  · exact (C8_state_invariant (Lexer.init digitsRules ['1']) (some t1) nt1
      (Or.inl rfl)).2.1

/-- Claim C9, counterexample: with a rule whose match spans a newline
(start x, halt y), source x-newline-a-y produces a token whose line
field is 1 although no whitespace (hence no newline) was consumed before
the start of the match and the scanner was at line 0: the line field is
taken at match end, not at match start. -/
theorem C9_counterexample :
    (parse_next (Lexer.init strRules ['x', '\n', 'a', 'y'])).map Prod.fst =
      .ok (some ⟨"str", ['x', '\n', 'a'], 1⟩) ∧
    (Lexer.init strRules ['x', '\n', 'a', 'y']).skip_whitespace =
      .ok (Lexer.init strRules ['x', '\n', 'a', 'y']) ∧
    (Lexer.init strRules ['x', '\n', 'a', 'y']).line = 0 :=
  ⟨rfl, rfl, rfl⟩

/-- Claim C9, amended: every produced token carries the 0-based count of
newline characters consumed up to the END of its match (the scanner
state's line counter at emission time, one increment per newline
consumed); for tokens whose lexemes contain no newline this coincides
with the line at match start, and source a-newline-b-newline-c lexed as
single-letter literals reports lines 0, 1, 2. -/
theorem C9_line_at_match_end :
    (∀ (l : Lexer) (t : Token) (l' : Lexer), parse_next l = .ok (some t, l') →
      t.line = l'.line ∧ ∃ pre, l.source = pre ++ l'.source ∧
        l'.line = l.line + pre.count '\n') ∧
    lexAll 4 (Lexer.init abcRules ['a', '\n', 'b', '\n', 'c']) =
      .ok [⟨"letter", ['a'], 0⟩, ⟨"letter", ['b'], 1⟩, ⟨"letter", ['c'], 2⟩] := by
  refine ⟨?_, rfl⟩
  intro l t l' h
  obtain ⟨⟨t', ht', hline⟩, ⟨pre, _, hp1, hp2⟩, _⟩ :=
    parse_next_spec l (some t) l' h
  injection ht' with ht'
  subst ht'
  exact ⟨hline, pre, hp1, hp2⟩

/-- Claim C9, witness for the amended theorem: the first token of the
a-newline-b source has a line field equal to the line counter of the
resulting state, and the consumed text accounts for that counter. -/
theorem C9_witness :
    parse_next (Lexer.init abcRules ['a', '\n', 'b', '\n', 'c']) =
      .ok (some ⟨"letter", ['a'], 0⟩, abc1) ∧
    (⟨"letter", ['a'], 0⟩ : Token).line = abc1.line ∧
    ∃ pre, (Lexer.init abcRules ['a', '\n', 'b', '\n', 'c']).source =
      pre ++ abc1.source ∧ abc1.line =
        (Lexer.init abcRules ['a', '\n', 'b', '\n', 'c']).line +
          pre.count '\n' := by
  refine ⟨rfl, ?_, ?_⟩
  · exact (C9_line_at_match_end.1 (Lexer.init abcRules ['a', '\n', 'b', '\n', 'c'])
      ⟨"letter", ['a'], 0⟩ abc1 rfl).1
  · exact (C9_line_at_match_end.1 (Lexer.init abcRules ['a', '\n', 'b', '\n', 'c'])
      ⟨"letter", ['a'], 0⟩ abc1 rfl).2

/-- Claim C10: keyword classification overrides literal classification:
a token emitted through the literal loop whose lexeme is a configured
keyword gets token_type keyword instead of the rule's name; the fallback
run emits a keyword token when its lexeme is a configured keyword, and
panics (producing no token) otherwise. -/
theorem C10_keyword_overrides :
    (∀ (kws : List (List Char)) (c : Char) (l : Lexer)
        (rules : List (String × List (Char → Bool))) (t : Token) (l' : Lexer),
      lexLiteral kws c l rules = .ok (some (t, l')) → t.value ∈ kws →
        t.token_type = "keyword") ∧
    (∀ (l : Lexer) (c : Char),
      (eatWhileNot l.rules.whitespace l.source l.line [c]).1 ∈
          l.rules.keywords →
        lexFallback l c = .ok (some ⟨"keyword",
          (eatWhileNot l.rules.whitespace l.source l.line [c]).1,
          (eatWhileNot l.rules.whitespace l.source l.line [c]).2.2⟩,
          { l with source := (eatWhileNot l.rules.whitespace l.source l.line [c]).2.1, line := (eatWhileNot l.rules.whitespace l.source l.line [c]).2.2 })) ∧
    (∀ (l : Lexer) (c : Char),
      (eatWhileNot l.rules.whitespace l.source l.line [c]).1 ∉
          l.rules.keywords →
        lexFallback l c = .error ("no known pattern exists for " ++
          String.mk (eatWhileNot l.rules.whitespace l.source l.line [c]).1)) := by
  refine ⟨?_, ?_, ?_⟩
  · intro kws c l rules t l' h hmem
    exact (lexLiteral_ok_spec kws c l rules t l' h).2.1 hmem
  · intro l c hmem
    simp only [lexFallback]
    rw [if_pos hmem]
  · intro l c hmem
    simp only [lexFallback]
    rw [if_neg hmem]

/-- Claim C10, witness: lexing the source if over the word table yields
token_type keyword although the matching rule is named word; the
fallback yields keyword for the configured keyword and panics on the
unconfigured run hash-a. -/
theorem C10_witness :
    lexLiteral kwRules.keywords 'i' (⟨['f'], none, none, kwRules, 0⟩ : Lexer)
        kwRules.literal_regex =
      .ok (some (⟨"keyword", ['i', 'f'], 0⟩, ⟨[], none, none, kwRules, 0⟩)) ∧
    (⟨"keyword", ['i', 'f'], 0⟩ : Token).value ∈ kwRules.keywords ∧
    (⟨"keyword", ['i', 'f'], 0⟩ : Token).token_type = "keyword" ∧
    lexFallback (⟨['f'], none, none, kw2Rules, 0⟩ : Lexer) 'i' =
      .ok (some ⟨"keyword", ['i', 'f'], 0⟩, ⟨[], none, none, kw2Rules, 0⟩) ∧
    lexFallback (⟨['a'], none, none, kw2Rules, 0⟩ : Lexer) '#' =
      .error "no known pattern exists for #a" := by
  refine ⟨rfl, by decide, ?_, ?_, ?_⟩
  · exact C10_keyword_overrides.1 kwRules.keywords 'i'
      (⟨['f'], none, none, kwRules, 0⟩ : Lexer) kwRules.literal_regex
      ⟨"keyword", ['i', 'f'], 0⟩ (⟨[], none, none, kwRules, 0⟩ : Lexer)
      rfl (by decide)
  · exact C10_keyword_overrides.2.1 (⟨['f'], none, none, kw2Rules, 0⟩ : Lexer)
      'i' (by decide)
  · exact C10_keyword_overrides.2.2 (⟨['a'], none, none, kw2Rules, 0⟩ : Lexer)
      '#' (by decide)

end LexerGen
